/-
Verification development for the compressed-tensors quantization observer
subsystem and its safetensors naming utilities.

The Python source is shallowly embedded:
  * parameter-name strings are `List Char`;
  * Python dicts (which preserve insertion order) are association lists;
  * torch tensors are rationals (0-d tensors) or row-major rational
    matrices (2-d tensors); float arithmetic is modelled exactly over ℚ;
  * fallible operations return `Except String`, and the stateful observer
    method threads its state explicitly, returning the state reached at
    the point of a raise as well as on success.
-/
import Mathlib

/-! ## Parameter-name utilities (src/compressed_tensors/utils/safetensors_load.py) -/

/-- Parameter names, modelled as lists of characters. -/
abbrev Name : Type := List Char

/-- Embeds `str.endswith(suffix)`. -/
def pyEndsWith (s suffix : Name) : Bool :=
  suffix.isSuffixOf s

/-- Embeds `is_quantization_param` (safetensors_load.py lines 245-259).
The source checks the suffixes `"_scale"`, `"zero_point"` and `"g_idx"`:
only the first carries the leading underscore. -/
def is_quantization_param (name : Name) : Bool :=
  if pyEndsWith name "_scale".toList then true
  else if pyEndsWith name "zero_point".toList then true
  else if pyEndsWith name "g_idx".toList then true
  else false

/-- Embeds `merge_names` (safetensors_load.py lines 114-124):
`parent_name + "." + child_name`. -/
def merge_names (parent_name child_name : Name) : Name :=
  parent_name ++ '.' :: child_name

/-- Helper for `match_param_name`: attempts the regex
`^(.*)\.param$` with the match forced to end at the end of `full`.
`(.*)` cannot cross a newline, and `param` is matched literally (the model
is faithful only for `param` free of regex metacharacters, which is how the
repository calls it). -/
def matchAtEnd (full param : Name) : Option Name :=
  if ('.' :: param).isSuffixOf full then
    let pre := full.take (full.length - (param.length + 1))
    if pre.contains '\n' then none else some pre
  else none

/-- Embeds `match_param_name` (safetensors_load.py lines 98-111), i.e.
`re.findall(r"^(.*)\." + param_name + r"$", full_name)` returning the first
capture or `None`.  Python's `$` matches either at the very end of the
string or just before a terminal newline, and the greedy `(.*)` prefers
the later end position. -/
def match_param_name (full_name param_name : Name) : Option Name :=
  match matchAtEnd full_name param_name with
  | some pre => some pre
  | none =>
    if full_name.getLast? = some '\n' then matchAtEnd full_name.dropLast param_name
    else none

/-! ## Ordered-dict model -/

/-- Looks a key up in an insertion-ordered association list (Python dict). -/
def dictFind {α β : Type} [DecidableEq α] (k : α) : List (α × β) → Option β
  | [] => none
  | kv :: rest => if kv.1 = k then some kv.2 else dictFind k rest

/-- Embeds `d[k] = v` on a Python dict: an existing key keeps its position,
a new key is appended at the end (insertion order). -/
def dictSet {α β : Type} [DecidableEq α] : List (α × β) → α → β → List (α × β)
  | [], k, v => [(k, v)]
  | kv :: rest, k, v => if kv.1 = k then (k, v) :: rest else kv :: dictSet rest k v

/-! ## Nested weight mappings (safetensors_load.py lines 181-230)

`get_weight_mappings` (file-system indexing) is abstracted as the input
association list `weight_mappings`; the nesting loop itself is embedded
faithfully. -/

/-- A nested mapping: uncompressed layer name to dict of compression
parameter name to file location. -/
abbrev Nested : Type := List (Name × List (Name × Name))

/-- Embeds the body of the matched case: `if dense_param not in
nested_weight_mappings: nested_weight_mappings[dense_param] = {}` followed
by `nested_weight_mappings[dense_param][param_name] = value`. -/
def nestedInsert (nest : Nested) (dense param value : Name) : Nested :=
  dictSet nest dense (dictSet ((dictFind dense nest).getD []) param value)

/-- Embeds the inner `for param_name in params_to_nest` loop for one key,
threading the nested mapping and the `matched` flag. -/
def nestParamsFold (params_to_nest : List Name) (key value : Name)
    (acc : Nested × Bool) : Nested × Bool :=
  params_to_nest.foldl
    (fun st p =>
      match match_param_name key p with
      | some dense => (nestedInsert st.1 dense p value, true)
      | none => st)
    acc

/-- Embeds one iteration of the outer `for key in weight_mappings.keys()`
loop: nest the key under every matching parameter name, and record it in
`other_params` when nothing matched. -/
def processKey (params_to_nest : List Name)
    (acc : Nested × List (Name × Name)) (kv : Name × Name) :
    Nested × List (Name × Name) :=
  let st := nestParamsFold params_to_nest kv.1 kv.2 (acc.1, false)
  if st.2 then (st.1, acc.2) else (st.1, acc.2 ++ [kv])

/-- Embeds `get_nested_weight_mappings(model_path, params_to_nest,
return_other_params=True)` with the underlying weight mapping passed in
directly.  Returns the nested mapping and the other-parameters mapping. -/
def get_nested_weight_mappings (weight_mappings : List (Name × Name))
    (params_to_nest : List Name) : Nested × List (Name × Name) :=
  weight_mappings.foldl (processKey params_to_nest) ([], [])

/-- Looks up the slot a matched key is recorded under: the dense name
extracted by `match_param_name`, then the per-layer dict, then the
parameter name. -/
def nestedFind (nest : Nested) (key p : Name) : Option Name :=
  (match_param_name key p).bind fun dense =>
    (dictFind dense nest).bind fun sub => dictFind p sub

/-- Decidable equality of `Except` values, used to evaluate the embedding
on concrete inputs. -/
instance {ε α : Type} [DecidableEq ε] [DecidableEq α] : DecidableEq (Except ε α)
  | .error a, .error b =>
    if h : a = b then .isTrue (by rw [h]) else .isFalse (by simp [h])
  | .error _, .ok _ => .isFalse (by simp)
  | .ok _, .error _ => .isFalse (by simp)
  | .ok a, .ok b =>
    if h : a = b then .isTrue (by rw [h]) else .isFalse (by simp [h])

/-! ## Quantization arguments (src/compressed_tensors/quantization/quant_args.py) -/

/-- Embeds the `QuantizationType` enum. -/
inductive QuantizationType where
  | int
  | float
deriving DecidableEq

/-- Embeds the `QuantizationStrategy` enum. -/
inductive QuantizationStrategy where
  | tensor
  | channel
  | group
  | block
  | token
deriving DecidableEq

/-- Embeds the `QuantizationArgs` pydantic model (quant_args.py lines
45-78).  The source performs no validation of `group_size`.  The
`observer_kwargs` dict is omitted: it is only forwarded to observer
constructors. -/
structure QuantizationArgs where
  num_bits : ℕ := 8
  type : QuantizationType := QuantizationType.int
  symmetric : Bool := true
  strategy : QuantizationStrategy := QuantizationStrategy.tensor
  group_size : Option ℤ := none
  block_structure : Option String := none
  observer : String := "minmax"
deriving DecidableEq

/-! ## Tensor model

Observed tensors are 2-d row-major rational matrices `Mat`; reduction
results are either 0-d tensors (`Tens.scalar`, from `torch.aminmax` with
no dims) or matrices (`Tens.mat`, from `amin`/`amax` with `keepdims`).
The embedding is evaluated only on nonempty tensors; `torch` raises on
empty reductions, which the claims never exercise. -/

/-- A 2-d tensor as a list of rows. -/
abbrev Mat : Type := List (List ℚ)

/-- A tensor value: 0-dimensional or 2-dimensional. -/
inductive Tens where
  | scalar (v : ℚ)
  | mat (m : Mat)
deriving DecidableEq

/-- Minimum of a list of rationals (0 on the empty list, never used). -/
def listMin : List ℚ → ℚ
  | [] => 0
  | x :: xs => xs.foldl min x

/-- Maximum of a list of rationals (0 on the empty list, never used). -/
def listMax : List ℚ → ℚ
  | [] => 0
  | x :: xs => xs.foldl max x

/-- All entries of a matrix, row-major. -/
def matFlat (m : Mat) : List ℚ :=
  m.foldr (fun r acc => r ++ acc) []

/-- Embeds `torch.aminmax(t)`: global (min, max) over all entries. -/
def aminmaxAll (m : Mat) : ℚ × ℚ :=
  (listMin (matFlat m), listMax (matFlat m))

/-- Embeds `torch.amin(t, dim=(1,), keepdims=True)` on a 2-d tensor. -/
def aminDim1 (m : Mat) : Mat :=
  m.map fun r => [listMin r]

/-- Embeds `torch.amax(t, dim=(1,), keepdims=True)` on a 2-d tensor. -/
def amaxDim1 (m : Mat) : Mat :=
  m.map fun r => [listMax r]

/-- Broadcast of one dimension: equal sizes, or one of them is 1. -/
def bdim (a b : ℕ) : Option ℕ :=
  if a = b then some a else if a = 1 then some b else if b = 1 then some a else none

/-- Column count of a matrix (its rows all have this length when the
matrix embeds a torch tensor). -/
def matCols (m : Mat) : ℕ :=
  (m.headD []).length

/-- Entry `m[i][j]`, defaulting to 0 out of range (never reached on
well-formed shapes). -/
def matEntry (m : Mat) (i j : ℕ) : ℚ :=
  (m.getD i []).getD j 0

/-- Pointwise binary operation on two matrices with torch broadcast
semantics on both dimensions; a non-broadcastable pair raises. -/
def matZip (f : ℚ → ℚ → ℚ) (a b : Mat) : Except String Mat :=
  match bdim a.length b.length, bdim (matCols a) (matCols b) with
  | some r, some c =>
    .ok ((List.range r).map fun i => (List.range c).map fun j =>
      f (matEntry a (if a.length = 1 then 0 else i) (if matCols a = 1 then 0 else j))
        (matEntry b (if b.length = 1 then 0 else i) (if matCols b = 1 then 0 else j)))
  | _, _ => .error "RuntimeError: tensor shapes cannot be broadcast"

/-- Pointwise binary operation on tensors: a 0-d operand broadcasts over
the other operand. -/
def tensOp (f : ℚ → ℚ → ℚ) : Tens → Tens → Except String Tens
  | .scalar x, .scalar y => .ok (.scalar (f x y))
  | .scalar x, .mat m => .ok (.mat (m.map fun r => r.map fun y => f x y))
  | .mat m, .scalar y => .ok (.mat (m.map fun r => r.map fun x => f x y))
  | .mat a, .mat b => (matZip f a b).map Tens.mat

/-- Multiplication of a tensor by a Python float. -/
def tensSmul (c : ℚ) : Tens → Tens
  | .scalar v => .scalar (c * v)
  | .mat m => .mat (m.map fun r => r.map fun v => c * v)

/-- All entries of a tensor. -/
def tensEntries : Tens → List ℚ
  | .scalar v => [v]
  | .mat m => matFlat m

/-- Embeds Python `len(tensor)`: the leading dimension; raises on a 0-d
tensor. -/
def pyLen : Tens → Except String ℕ
  | .scalar _ => .error "TypeError: len of a 0-d tensor"
  | .mat m => .ok m.length

/-- Concatenates further tensors onto an accumulated matrix row by row,
raising on a 0-d tensor or a row-count mismatch. -/
def catMats : Mat → List Tens → Except String Mat
  | acc, [] => .ok acc
  | acc, t :: rest =>
    match t with
    | .scalar _ => .error "RuntimeError: zero-dimensional tensor cannot be concatenated"
    | .mat m =>
      if m.length = acc.length then
        catMats (List.zipWith (fun r s => r ++ s) acc m) rest
      else .error "RuntimeError: sizes of tensors must match"

/-- Embeds `torch.cat(ts, dim=1)`: raises on an empty list, on any 0-d
tensor, and on mismatched row counts; otherwise concatenates rows. -/
def pyCatDim1 : List Tens → Except String Mat
  | [] => .error "RuntimeError: torch.cat expected a non-empty list of Tensors"
  | .scalar _ :: _ => .error "RuntimeError: zero-dimensional tensor cannot be concatenated"
  | .mat m :: rest => catMats m rest

/-! ## Quantization-parameter calculator

The helper `calculate_qparams` lives in
`compressed_tensors/quantization/observers/helpers.py`, which is not part
of the provided sources; it is modelled from the spec (section 4.3). -/

/-- Modelled from the spec: the "small positive epsilon" floor used to
keep scales away from zero (float32 machine epsilon). -/
def eps : ℚ := 1 / 2 ^ 23

/-- Modelled from the spec: lower end of the signed representable integer
range, `-2^(num_bits-1)`. -/
def quantMin (num_bits : ℕ) : ℤ :=
  -(2 ^ (num_bits - 1))

/-- Modelled from the spec: upper end of the signed representable integer
range, `2^(num_bits-1) - 1`. -/
def quantMax (num_bits : ℕ) : ℤ :=
  2 ^ (num_bits - 1) - 1

/-- Modelled from the spec: the scale for one (min, max) pair.  Symmetric:
`max(abs(min_val), abs(max_val)) / (2^(num_bits-1) - 1)`; asymmetric:
`(max_val - min_val) / (quant_max - quant_min)`; in both cases clamped
below by the epsilon floor. -/
def scaleOf (args : QuantizationArgs) (mn mx : ℚ) : ℚ :=
  let raw : ℚ :=
    if args.symmetric then
      max |mn| |mx| / ((2 : ℚ) ^ (args.num_bits - 1) - 1)
    else
      (mx - mn) / (((quantMax args.num_bits : ℚ)) - ((quantMin args.num_bits : ℚ)))
  max raw eps

/-- Modelled from the spec: the zero point for one (min, max) pair.
Symmetric: 0; asymmetric: `round(quant_min - min_val / scale)` clamped to
the representable integer range. -/
def zpOf (args : QuantizationArgs) (mn mx : ℚ) : ℚ :=
  if args.symmetric then 0
  else
    ((max (quantMin args.num_bits)
        (min (quantMax args.num_bits)
          (round ((quantMin args.num_bits : ℚ) - mn / scaleOf args mn mx))) : ℤ) : ℚ)

/-- Modelled from the spec: the pure quantization-parameter calculator
`calculate_qparams(min_vals, max_vals, quantization_args)` mapping running
(min, max) tensors to the (scale, zero_point) pair, pointwise. -/
def calculate_qparams (min_vals max_vals : Tens) (args : QuantizationArgs) :
    Except String (Tens × Tens) := do
  let s ← tensOp (scaleOf args) min_vals max_vals
  let z ← tensOp (zpOf args) min_vals max_vals
  pure (s, z)

/-! ## Moving-average min/max observer
(src/compressed_tensors/quantization/observers/min_max.py) -/

/-- Running statistics: `None` is `Option.none`; the TENSOR/CHANNEL path
stores a tensor, the GROUP path a dict from group start offset to
tensor. -/
inductive RunVal where
  | tens (t : Tens)
  | groups (d : List (ℕ × Tens))
deriving DecidableEq

/-- Embeds the observer object: its `QuantizationArgs` reference, the
`averaging_constant` (default 0.01 from `__init__`), and the running
`min_val` / `max_val` slots, both `None` on construction. -/
structure MovingAverageMinMaxObserver where
  quantization_args : QuantizationArgs
  averaging_constant : ℚ := 1 / 100
  min_val : Option RunVal := none
  max_val : Option RunVal := none
deriving DecidableEq

/-- Embeds `MovingAverageMinMaxObserver.__init__` with the default
averaging constant. -/
def MovingAverageMinMaxObserver.init (args : QuantizationArgs) :
    MovingAverageMinMaxObserver :=
  { quantization_args := args }

/-- The per-call (min, max) of an observed tensor.  `rd = false` embeds a
falsy `reduce_dims` (global `torch.aminmax`); `rd = true` embeds
`reduce_dims = (1,)` with `keepdims=True`, the reduction shape the
repository uses on 2-d tensors. -/
def currentMinMax (observed : Mat) (rd : Bool) : Tens × Tens :=
  if rd then (.mat (aminDim1 observed), .mat (amaxDim1 observed))
  else (.scalar (aminmaxAll observed).1, .scalar (aminmaxAll observed).2)

/-- Embeds `range(0, columns, group_size)` for an integer step (the
`None` / `0` step errors are raised by the caller). -/
def pyRange (columns : ℕ) (g : ℤ) : List ℕ :=
  if g ≤ 0 then []
  else (List.range ((columns + g.toNat - 1) / g.toNat)).map (· * g.toNat)

/-- Embeds `observed[:, i : i + g]`. -/
def colSlice (observed : Mat) (i g : ℕ) : Mat :=
  observed.map fun r => (r.drop i).take g

/-- Embeds the moving-average update expression
`old + averaging_constant * (current - old)` with torch broadcasting. -/
def movingUpdate (c : ℚ) (old cur : Tens) : Except String Tens := do
  let diff ← tensOp (fun x y => x - y) cur old
  tensOp (fun x y => x + y) old (tensSmul c diff)

/-- Embeds `len(self.min_val[i])` where `min_val` is a
`defaultdict(Tensor)`: a missing key reads as an empty tensor of length
0; a stored 0-d tensor makes `len` raise. -/
def pyLenDict (d : List (ℕ × Tens)) (i : ℕ) : Except String ℕ :=
  match dictFind i d with
  | none => .ok 0
  | some t => pyLen t

/-- Embeds the `for i in range(0, columns, group_size)` loop of the GROUP
branch (min_max.py lines 68-86), threading the two per-group dicts and
stopping at the state reached when an operation raises. -/
def groupLoop (c : ℚ) (rd : Bool) (observed : Mat) (g : ℕ) :
    List ℕ → List (ℕ × Tens) → List (ℕ × Tens) →
    Option String × List (ℕ × Tens) × List (ℕ × Tens)
  | [], dmin, dmax => (none, dmin, dmax)
  | i :: rest, dmin, dmax =>
    let cur := currentMinMax (colSlice observed i g) rd
    match pyLenDict dmin i with
    | .error e => (some e, dmin, dmax)
    | .ok n =>
      if n = 0 then
        groupLoop c rd observed g rest (dictSet dmin i cur.1) (dictSet dmax i cur.2)
      else
        match movingUpdate c ((dictFind i dmin).getD (.mat [])) cur.1 with
        | .error e => (some e, dmin, dmax)
        | .ok newMin =>
          let dmin' := dictSet dmin i newMin
          match movingUpdate c ((dictFind i dmax).getD (.mat [])) cur.2 with
          | .error e => (some e, dmin', dmax)
          | .ok newMax => groupLoop c rd observed g rest dmin' (dictSet dmax i newMax)

/-- Embeds the GROUP branch of `calculate_qparams` (min_max.py lines
59-91) after the running dicts have been selected: validates the `range`
arguments, runs the group loop, and concatenates the per-group running
values.  Lines 88-89 of the source build `min_vals` from
`self.max_val.values()` and `max_vals` from `self.min_val.values()`, so
the concatenated running maxima are returned in the min slot and vice
versa; the embedding reproduces that swap. -/
def groupUpdate (s : MovingAverageMinMaxObserver) (observed : Mat) (rd : Bool)
    (dmin dmax : List (ℕ × Tens)) :
    Except String (Tens × Tens) × MovingAverageMinMaxObserver :=
  let columns := matCols observed
  match s.quantization_args.group_size with
  | none =>
    (.error "TypeError: NoneType object cannot be interpreted as an integer",
      { s with min_val := some (.groups dmin), max_val := some (.groups dmax) })
  | some g =>
    if g = 0 then
      (.error "ValueError: range arg 3 must not be zero",
        { s with min_val := some (.groups dmin), max_val := some (.groups dmax) })
    else
      match groupLoop s.averaging_constant rd observed g.toNat (pyRange columns g) dmin dmax with
      | (some e, dmin', dmax') =>
        (.error e,
          { s with min_val := some (.groups dmin'), max_val := some (.groups dmax') })
      | (none, dmin', dmax') =>
        let sNew := { s with min_val := some (.groups dmin'),
                             max_val := some (.groups dmax') }
        match pyCatDim1 (dmax'.map Prod.snd), pyCatDim1 (dmin'.map Prod.snd) with
        | .ok mnv, .ok mxv => (.ok (.mat mnv, .mat mxv), sNew)
        | .error e, _ => (.error e, sNew)
        | _, .error e => (.error e, sNew)

/-- Embeds the TENSOR/CHANNEL path of `calculate_qparams` (min_max.py
lines 93-108): compute the per-call (min, max), initialize the running
slots on the first call, otherwise apply the moving-average update (the
min slot is assigned before the max update is evaluated, as in the
source). -/
def nongroupUpdate (s : MovingAverageMinMaxObserver) (observed : Mat) (rd : Bool) :
    Except String (Tens × Tens) × MovingAverageMinMaxObserver :=
  let cur := currentMinMax observed rd
  match s.min_val, s.max_val with
  | none, none =>
    (.ok (cur.1, cur.2),
      { s with min_val := some (.tens cur.1), max_val := some (.tens cur.2) })
  | some (.tens mn), some (.tens mx) =>
    match movingUpdate s.averaging_constant mn cur.1 with
    | .error e => (.error e, s)
    | .ok newMin =>
      match movingUpdate s.averaging_constant mx cur.2 with
      | .error e => (.error e, { s with min_val := some (.tens newMin) })
      | .ok newMax =>
        (.ok (newMin, newMax),
          { s with min_val := some (.tens newMin), max_val := some (.tens newMax) })
  | _, _ =>
    (.error "TypeError: unsupported operand type for running statistics", s)

/-- The statistics-update phase of one observer call: selects the GROUP
or TENSOR/CHANNEL path and returns the (min, max) pair the source then
hands to `calculate_qparams`, together with the observer state (also on a
raise, since the source mutates `self` in place).  A state mixing dict
and tensor statistics can only arise if the strategy is mutated between
calls and is modelled as an error. -/
def updateStats (s : MovingAverageMinMaxObserver) (observed : Mat) (rd : Bool) :
    Except String (Tens × Tens) × MovingAverageMinMaxObserver :=
  if s.quantization_args.strategy = QuantizationStrategy.group then
    match s.min_val, s.max_val with
    | none, none => groupUpdate s observed rd [] []
    | some (.groups a), some (.groups b) => groupUpdate s observed rd a b
    | _, _ => (.error "TypeError: running statistics are not dicts", s)
  else
    nongroupUpdate s observed rd

/-- Embeds one full call of
`MovingAverageMinMaxObserver.calculate_qparams(observed, reduce_dims)`:
update the running statistics, then derive (scale, zero_point) through
the quantization-parameter calculator. -/
def movingAvgCalculateQparams (s : MovingAverageMinMaxObserver)
    (observed : Mat) (rd : Bool) :
    Except String (Tens × Tens) × MovingAverageMinMaxObserver :=
  match updateStats s observed rd with
  | (.error e, sNew) => (.error e, sNew)
  | (.ok (mn, mx), sNew) =>
    match calculate_qparams mn mx s.quantization_args with
    | .error e => (.error e, sNew)
    | .ok out => (.ok out, sNew)

/-! ## Theorems -/

section SuffixLemmas

/-- A boolean suffix test is a proposition about list suffixes. -/
theorem pyEndsWith_iff (s suffix : Name) : pyEndsWith s suffix = true ↔ suffix <:+ s := by
  simp [pyEndsWith]

end SuffixLemmas

/-- Claim C3, counterexample: the name `azero_point` is classified as a
quantization parameter by the source even though it ends in none of the
three underscore-led suffixes `_scale`, `_zero_point`, `_g_idx`: the
source tests `zero_point` and `g_idx` without the leading underscore. -/
theorem is_quantization_param_counterexample :
    is_quantization_param "azero_point".toList = true ∧
    pyEndsWith "azero_point".toList "_scale".toList = false ∧
    pyEndsWith "azero_point".toList "_zero_point".toList = false ∧
    pyEndsWith "azero_point".toList "_g_idx".toList = false := by
  decide

/-- Claim C3, amended: `is_quantization_param` returns `True` exactly for
names ending in `_scale` (with the underscore), `zero_point`, or `g_idx`
(both without requiring a leading underscore). -/
theorem is_quantization_param_suffix_iff (name : Name) :
    is_quantization_param name = true ↔
      (pyEndsWith name "_scale".toList = true ∨
       pyEndsWith name "zero_point".toList = true ∨
       pyEndsWith name "g_idx".toList = true) := by
  unfold is_quantization_param
  split
  · simp_all
  · split
    · simp_all
    · split <;> simp_all

/-- Claim C9, counterexample: with a parent name containing a newline,
the regex `^(.*)\.param$` cannot match (`.` does not cross newlines), so
the merge/match round trip fails; and a full name with a trailing newline
matches (Python `$` accepts a final newline) even though it does not end
in `.` followed by the parameter name. -/
theorem match_param_name_counterexample :
    match_param_name (merge_names "a\nb".toList "w".toList) "w".toList = none ∧
    match_param_name "a.w\n".toList "w".toList = some "a".toList ∧
    pyEndsWith "a.w\n".toList ('.' :: "w".toList) = false := by
  decide

/-- A character absent from a list makes `contains` false. -/
theorem contains_eq_false_of_not_mem {l : Name} {a : Char} (h : a ∉ l) :
    l.contains a = false := by
  rw [Bool.eq_false_iff]
  intro hc
  rw [List.contains_iff_exists_mem_beq] at hc
  rcases hc with ⟨x, hx, hbeq⟩
  rw [beq_iff_eq] at hbeq
  exact h (hbeq ▸ hx)

/-- On a newline-free parent, the end-anchored match recovers the parent
from a merged name. -/
theorem matchAtEnd_merge (parent param : Name) (hp : '\n' ∉ parent) :
    matchAtEnd (merge_names parent param) param = some parent := by
  have hsuf : ('.' :: param).isSuffixOf (parent ++ '.' :: param) = true := by
    rw [List.isSuffixOf_iff_suffix]
    exact List.suffix_append parent ('.' :: param)
  have hlen : (parent ++ '.' :: param).length - (param.length + 1) = parent.length := by
    simp [List.length_append]
  have htake : (parent ++ '.' :: param).take
      ((parent ++ '.' :: param).length - (param.length + 1)) = parent := by
    rw [hlen]
    exact List.take_left' rfl
  have hcont := contains_eq_false_of_not_mem hp
  unfold matchAtEnd merge_names
  simp only [hsuf, if_true, htake, hcont]
  simp

/-- On a newline-free full name ending in `.param`, the end-anchored
match succeeds with the dotted prefix. -/
theorem matchAtEnd_of_suffix (full param : Name) (hf : '\n' ∉ full)
    (hs : ('.' :: param) <:+ full) :
    matchAtEnd full param = some (full.take (full.length - (param.length + 1))) := by
  have hsuf : ('.' :: param).isSuffixOf full = true := by
    rw [List.isSuffixOf_iff_suffix]
    exact hs
  have hcont : (full.take (full.length - (param.length + 1))).contains '\n' = false :=
    contains_eq_false_of_not_mem fun hmem => hf (List.take_subset _ full hmem)
  unfold matchAtEnd
  simp only [hsuf, if_true, hcont]
  simp

/-- Claim C9, amended: restricted to newline-free parent and full names
(and parameter names with no regex metacharacters, the only form the
repository uses), `match_param_name` inverts `merge_names`, and it
returns `None` exactly when the full name does not end in `.` followed by
the parameter name.  With newlines the claim fails, because `(.*)` in the
pattern does not cross newlines and `$` also matches before a terminal
newline (see the counterexample). -/
theorem match_param_name_roundtrip (parent param full : Name)
    (hp : '\n' ∉ parent) (hf : '\n' ∉ full) :
    match_param_name (merge_names parent param) param = some parent ∧
    (match_param_name full param = none ↔
      pyEndsWith full ('.' :: param) = false) := by
  constructor
  · unfold match_param_name
    rw [matchAtEnd_merge parent param hp]
  · unfold match_param_name
    by_cases hs : ('.' :: param) <:+ full
    · rw [matchAtEnd_of_suffix full param hf hs]
      simp [pyEndsWith, List.isSuffixOf_iff_suffix, hs]
    · have h1 : matchAtEnd full param = none := by
        unfold matchAtEnd
        rw [if_neg]
        simp [List.isSuffixOf_iff_suffix, hs]
      rw [h1]
      have h2 : full.getLast? ≠ some '\n' := by
        intro hc
        rcases List.getLast?_eq_some_iff.mp hc with ⟨ys, rfl⟩
        exact hf (by simp)
      rw [if_neg h2]
      have h3 : ('.' :: param).isSuffixOf full = false := by
        rw [Bool.eq_false_iff]
        intro hc
        exact hs (List.isSuffixOf_iff_suffix.mp hc)
      simp [pyEndsWith, h3]

/-- Witness for `match_param_name_roundtrip` on concrete names. -/
theorem match_param_name_roundtrip_witness :
    match_param_name (merge_names "model.layers.0".toList "weight_scale".toList)
        "weight_scale".toList = some "model.layers.0".toList ∧
    (match_param_name "model.bias".toList "weight_scale".toList = none ↔
      pyEndsWith "model.bias".toList ('.' :: "weight_scale".toList) = false) :=
  match_param_name_roundtrip "model.layers.0".toList "weight_scale".toList
    "model.bias".toList (by decide) (by decide)

/-- Membership in the flattened entries of a matrix. -/
theorem mem_matFlat {m : Mat} {x : ℚ} : x ∈ matFlat m ↔ ∃ r ∈ m, x ∈ r := by
  induction m with
  | nil => simp [matFlat]
  | cons r rest ih =>
    simp only [matFlat, List.foldr_cons, List.mem_append, List.mem_cons]
    rw [show rest.foldr (fun r acc => r ++ acc) [] = matFlat rest from rfl]
    constructor
    · rintro (hx | hx)
      · exact ⟨r, Or.inl rfl, hx⟩
      · rcases ih.mp hx with ⟨r', hr', hx'⟩
        exact ⟨r', Or.inr hr', hx'⟩
    · rintro ⟨r', hr' | hr', hx'⟩
      · exact Or.inl (hr' ▸ hx')
      · exact Or.inr (ih.mpr ⟨r', hr', hx'⟩)

/-- Every entry of a successful broadcast operation is a value of the
operation. -/
theorem matZip_mem {f : ℚ → ℚ → ℚ} {a b m : Mat} (h : matZip f a b = .ok m) :
    ∀ x ∈ matFlat m, ∃ u v, x = f u v := by
  unfold matZip at h
  split at h
  · rcases h with ⟨⟩
    intro x hx
    rcases mem_matFlat.mp hx with ⟨row, hrow, hxr⟩
    rcases List.mem_map.mp hrow with ⟨i, _, rfl⟩
    rcases List.mem_map.mp hxr with ⟨j, _, rfl⟩
    exact ⟨_, _, rfl⟩
  · exact absurd h (by simp)

/-- Every entry of a successful pointwise tensor operation is a value of
the operation. -/
theorem tensOp_entries {f : ℚ → ℚ → ℚ} {a b t : Tens} (h : tensOp f a b = .ok t) :
    ∀ x ∈ tensEntries t, ∃ u v, x = f u v := by
  cases a with
  | scalar xa =>
    cases b with
    | scalar xb =>
      rcases h with ⟨⟩
      intro x hx
      rcases List.mem_singleton.mp hx with rfl
      exact ⟨_, _, rfl⟩
    | mat mb =>
      rcases h with ⟨⟩
      intro x hx
      rcases mem_matFlat.mp hx with ⟨row, hrow, hxr⟩
      rcases List.mem_map.mp hrow with ⟨r0, _, rfl⟩
      rcases List.mem_map.mp hxr with ⟨v, _, rfl⟩
      exact ⟨_, _, rfl⟩
  | mat ma =>
    cases b with
    | scalar xb =>
      rcases h with ⟨⟩
      intro x hx
      rcases mem_matFlat.mp hx with ⟨row, hrow, hxr⟩
      rcases List.mem_map.mp hrow with ⟨r0, _, rfl⟩
      rcases List.mem_map.mp hxr with ⟨v, _, rfl⟩
      exact ⟨_, _, rfl⟩
    | mat mb =>
      simp only [tensOp] at h
      cases hz : matZip f ma mb with
      | error e => rw [hz] at h; exact absurd h (by simp [Except.map])
      | ok m =>
        rw [hz] at h
        simp only [Except.map] at h
        rcases h with ⟨⟩
        exact matZip_mem hz

/-- The epsilon floor is positive. -/
theorem eps_pos : (0 : ℚ) < eps := by norm_num [eps]

/-- Every scale produced by the calculator is at least the epsilon
floor. -/
theorem eps_le_scaleOf (args : QuantizationArgs) (mn mx : ℚ) :
    eps ≤ scaleOf args mn mx :=
  le_max_right _ _

/-- Every scale entry of a successful calculator call is a `scaleOf`
value. -/
theorem calculate_qparams_scale {mn mx : Tens} {args : QuantizationArgs}
    {out : Tens × Tens} (h : calculate_qparams mn mx args = .ok out) :
    ∀ x ∈ tensEntries out.1, ∃ u v, x = scaleOf args u v := by
  unfold calculate_qparams at h
  cases hs : tensOp (scaleOf args) mn mx with
  | error e => rw [hs] at h; exact absurd h (by simp [Bind.bind, Except.bind])
  | ok st =>
    rw [hs] at h
    cases hz : tensOp (zpOf args) mn mx with
    | error e => rw [hz] at h; exact absurd h (by simp [Bind.bind, Except.bind])
    | ok zt =>
      rw [hz] at h
      simp only [Bind.bind, Except.bind, pure, Except.pure] at h
      rcases h with ⟨⟩
      exact tensOp_entries hs

/-- Default quantization arguments: 8 bits, INT, symmetric, TENSOR. -/
def argsDefault : QuantizationArgs := {}

/-- Claim C7: whenever an observer call succeeds, every entry of the
returned scale tensor is strictly positive (indeed at least the epsilon
floor): the division-by-zero danger on constant tensors is recovered by
the clamp inside the (spec-modelled) calculator and never surfaces. -/
theorem observer_scale_positive (s : MovingAverageMinMaxObserver) (observed : Mat)
    (rd : Bool) (out : Tens × Tens) (sNew : MovingAverageMinMaxObserver)
    (h : movingAvgCalculateQparams s observed rd = (.ok out, sNew)) :
    ∀ x ∈ tensEntries out.1, 0 < x ∧ eps ≤ x := by
  unfold movingAvgCalculateQparams at h
  split at h
  · simp at h
  · rename_i mn mx sN heq
    split at h
    · simp at h
    · rename_i o hcalc
      have hout : o = out := by
        simpa using congrArg Prod.fst h
      subst hout
      intro x hx
      rcases calculate_qparams_scale hcalc x hx with ⟨u, v, rfl⟩
      exact ⟨lt_of_lt_of_le eps_pos (eps_le_scaleOf _ _ _), eps_le_scaleOf _ _ _⟩

/-- Witness for `observer_scale_positive`: a constant tensor, the
degenerate `max_val == min_val` case of the claim, whose single scale
entry 1/127 is strictly positive. -/
theorem observer_scale_positive_witness :
    0 < (1 / 127 : ℚ) ∧ eps ≤ (1 / 127 : ℚ) :=
  observer_scale_positive (MovingAverageMinMaxObserver.init argsDefault)
    [[1, 1, 1, 1, 1]] false (Tens.scalar (1 / 127), Tens.scalar 0)
    { quantization_args := argsDefault,
      min_val := some (.tens (.scalar 1)), max_val := some (.tens (.scalar 1)) }
    (by norm_num +decide [movingAvgCalculateQparams, updateStats, nongroupUpdate,
      currentMinMax, aminmaxAll, matFlat, listMin, listMax, calculate_qparams,
      tensOp, scaleOf, zpOf, eps, MovingAverageMinMaxObserver.init, argsDefault,
      Bind.bind, Except.bind, pure, Except.pure])
    (1 / 127) (by simp [tensEntries, matFlat])

/-- Claim C6, counterexample: on the constant zero tensor with the
default symmetric 8-bit configuration the returned scale is the epsilon
floor, not the formula value `max(abs(min), abs(max)) / (2^(num_bits-1) -
1) = 0`; the claimed unconditional equality fails in the degenerate
clamped case. -/
theorem symmetric_scale_clamp_counterexample :
    calculate_qparams (Tens.scalar 0) (Tens.scalar 0) argsDefault =
      .ok (Tens.scalar eps, Tens.scalar 0) ∧
    eps ≠ max |(0 : ℚ)| |(0 : ℚ)| / ((2 : ℚ) ^ (argsDefault.num_bits - 1) - 1) := by
  constructor
  · norm_num +decide [calculate_qparams, tensOp, scaleOf, zpOf, eps, argsDefault,
      Bind.bind, Except.bind, pure, Except.pure]
  · norm_num [eps, argsDefault]

/-- Claim C6, amended: with `symmetric = True` the zero point is always 0
(also entrywise through the calculator), and the scale is the spec's
formula `max(abs(min_val), abs(max_val)) / (2^(num_bits-1) - 1)` clamped
below by the epsilon floor, hence equal to the formula whenever the
formula is at least epsilon. -/
theorem symmetric_qparams (args : QuantizationArgs) (mn mx : ℚ)
    (hsym : args.symmetric = true) :
    zpOf args mn mx = 0 ∧
    scaleOf args mn mx =
      max (max |mn| |mx| / ((2 : ℚ) ^ (args.num_bits - 1) - 1)) eps ∧
    (eps ≤ max |mn| |mx| / ((2 : ℚ) ^ (args.num_bits - 1) - 1) →
      scaleOf args mn mx = max |mn| |mx| / ((2 : ℚ) ^ (args.num_bits - 1) - 1)) ∧
    (∀ mnT mxT out, calculate_qparams mnT mxT args = .ok out →
      ∀ z ∈ tensEntries out.2, z = 0) := by
  refine ⟨by simp [zpOf, hsym], by simp [scaleOf, hsym], ?_, ?_⟩
  · intro hle
    simp only [scaleOf, hsym, if_true]
    exact max_eq_left hle
  · intro mnT mxT out hcalc z hz
    unfold calculate_qparams at hcalc
    cases hs : tensOp (scaleOf args) mnT mxT with
    | error e => rw [hs] at hcalc; exact absurd hcalc (by simp [Bind.bind, Except.bind])
    | ok st =>
      rw [hs] at hcalc
      cases hzz : tensOp (zpOf args) mnT mxT with
      | error e => rw [hzz] at hcalc; exact absurd hcalc (by simp [Bind.bind, Except.bind])
      | ok zt =>
        rw [hzz] at hcalc
        simp only [Bind.bind, Except.bind, pure, Except.pure] at hcalc
        rcases hcalc with ⟨⟩
        rcases tensOp_entries hzz z hz with ⟨u, v, rfl⟩
        simp [zpOf, hsym]

/-- Witness for `symmetric_qparams` at a concrete symmetric
configuration and (min, max) pair. -/
theorem symmetric_qparams_witness :
    zpOf argsDefault (-2) 3 = 0 ∧
    scaleOf argsDefault (-2) 3 =
      max (max |(-2 : ℚ)| |(3 : ℚ)| / ((2 : ℚ) ^ (argsDefault.num_bits - 1) - 1)) eps ∧
    (eps ≤ max |(-2 : ℚ)| |(3 : ℚ)| / ((2 : ℚ) ^ (argsDefault.num_bits - 1) - 1) →
      scaleOf argsDefault (-2) 3 =
        max |(-2 : ℚ)| |(3 : ℚ)| / ((2 : ℚ) ^ (argsDefault.num_bits - 1) - 1)) ∧
    (∀ mnT mxT out, calculate_qparams mnT mxT argsDefault = .ok out →
      ∀ z ∈ tensEntries out.2, z = 0) :=
  symmetric_qparams argsDefault (-2) 3 (by decide)

/-- Asymmetric 8-bit GROUP configuration with `group_size = 2`. -/
def argsAsymGroup : QuantizationArgs :=
  { symmetric := false, strategy := QuantizationStrategy.group, group_size := some 2 }

set_option maxHeartbeats 1000000 in
/-- Claim C1: after a GROUP call on `[[0, 3], [2, 5]]` with group size 2
(one group), the running per-group minimum is `[[0], [2]]` and maximum
`[[3], [5]]`, but the returned pair equals the calculator applied to the
concatenated running maxima as the min argument and the concatenated
running minima as the max argument — and differs from the claimed value,
the calculator applied to (minima, maxima).  Source lines 88-89 fill the
local variable `min_vals` from `self.max_val.values()` and `max_vals`
from `self.min_val.values()`. -/
theorem group_branch_swaps_min_and_max :
    (movingAvgCalculateQparams (MovingAverageMinMaxObserver.init argsAsymGroup)
        [[0, 3], [2, 5]] true).2.min_val =
      some (.groups [(0, Tens.mat [[0], [2]])]) ∧
    (movingAvgCalculateQparams (MovingAverageMinMaxObserver.init argsAsymGroup)
        [[0, 3], [2, 5]] true).2.max_val =
      some (.groups [(0, Tens.mat [[3], [5]])]) ∧
    (movingAvgCalculateQparams (MovingAverageMinMaxObserver.init argsAsymGroup)
        [[0, 3], [2, 5]] true).1 =
      calculate_qparams (Tens.mat [[3], [5]]) (Tens.mat [[0], [2]]) argsAsymGroup ∧
    (movingAvgCalculateQparams (MovingAverageMinMaxObserver.init argsAsymGroup)
        [[0, 3], [2, 5]] true).1 ≠
      calculate_qparams (Tens.mat [[0], [2]]) (Tens.mat [[3], [5]]) argsAsymGroup := by
  have hupd : updateStats (MovingAverageMinMaxObserver.init argsAsymGroup)
      [[0, 3], [2, 5]] true =
      (.ok (.mat [[3], [5]], .mat [[0], [2]]),
        { quantization_args := argsAsymGroup,
          min_val := some (.groups [(0, .mat [[0], [2]])]),
          max_val := some (.groups [(0, .mat [[3], [5]])]) }) := by
    have hloop : groupLoop (1/100) true [[0, 3], [2, 5]] 2 [0] [] [] =
        (none, [(0, Tens.mat [[0], [2]])], [(0, Tens.mat [[3], [5]])]) := by
      norm_num +decide [groupLoop, pyLenDict, pyLen, dictFind, dictSet, colSlice,
        currentMinMax, aminDim1, amaxDim1, listMin, listMax]
    norm_num +decide [updateStats, groupUpdate, pyRange, matCols, hloop,
      MovingAverageMinMaxObserver.init, argsAsymGroup, pyCatDim1, catMats,
      show Int.toNat 2 = 2 from rfl,
      show List.range 1 = [0] from by decide]
  have hswap : calculate_qparams (Tens.mat [[3], [5]]) (Tens.mat [[0], [2]]) argsAsymGroup =
      .ok (.mat [[eps], [eps]], .mat [[-128], [-128]]) := by
    norm_num +decide [calculate_qparams, tensOp, matZip, bdim, matCols, matEntry,
      scaleOf, zpOf, eps, quantMin, quantMax, argsAsymGroup, round_eq,
      Bind.bind, Except.bind, pure, Except.pure, Except.map,
      show List.range 2 = [0, 1] from by decide,
      show List.range 1 = [0] from by decide]
  have hcorr : calculate_qparams (Tens.mat [[0], [2]]) (Tens.mat [[3], [5]]) argsAsymGroup =
      .ok (.mat [[1/85], [1/85]], .mat [[-128], [-128]]) := by
    norm_num +decide [calculate_qparams, tensOp, matZip, bdim, matCols, matEntry,
      scaleOf, zpOf, eps, quantMin, quantMax, argsAsymGroup, round_eq,
      Bind.bind, Except.bind, pure, Except.pure, Except.map,
      show List.range 2 = [0, 1] from by decide,
      show List.range 1 = [0] from by decide]
  have hpipe : movingAvgCalculateQparams (MovingAverageMinMaxObserver.init argsAsymGroup)
      [[0, 3], [2, 5]] true =
      (.ok (.mat [[eps], [eps]], .mat [[-128], [-128]]),
        { quantization_args := argsAsymGroup,
          min_val := some (.groups [(0, .mat [[0], [2]])]),
          max_val := some (.groups [(0, .mat [[3], [5]])]) }) := by
    rw [movingAvgCalculateQparams, hupd]
    rw [show (MovingAverageMinMaxObserver.init argsAsymGroup).quantization_args =
      argsAsymGroup from rfl]
    simp only [hswap]
  refine ⟨by rw [hpipe], by rw [hpipe], by rw [hpipe, hswap], ?_⟩
  rw [hpipe, hcorr]
  intro hc
  simp only [Prod.fst, Except.ok.injEq, Prod.mk.injEq, Tens.mat.injEq] at hc
  have : eps = 1/85 := by
    have h1 := hc.1
    injection h1 with hrow _
    injection hrow
  norm_num [eps] at this

/-- The final observer state does not depend on the quantization-parameter
calculation: it is fixed by the statistics-update phase. -/
theorem movingAvg_state (s : MovingAverageMinMaxObserver) (observed : Mat) (rd : Bool) :
    (movingAvgCalculateQparams s observed rd).2 = (updateStats s observed rd).2 := by
  unfold movingAvgCalculateQparams
  rcases h : updateStats s observed rd with ⟨r, sNew⟩
  rcases r with e | ⟨mn, mx⟩
  · simp
  · rcases hq : calculate_qparams mn mx s.quantization_args with e | o <;> simp [hq]

/-- The calculator always succeeds on two matrices of equal shape. -/
theorem calculate_qparams_mat_ok (a b : Mat) (args : QuantizationArgs)
    (hr : a.length = b.length) (hc : matCols a = matCols b) :
    ∃ out, calculate_qparams (.mat a) (.mat b) args = .ok out := by
  have hz : ∀ f : ℚ → ℚ → ℚ, ∃ m, matZip f a b = .ok m := by
    intro f
    unfold matZip
    rw [hr, hc]
    simp [bdim]
  rcases hz (scaleOf args) with ⟨m1, h1⟩
  rcases hz (zpOf args) with ⟨m2, h2⟩
  exact ⟨(.mat m1, .mat m2), by
    simp [calculate_qparams, tensOp, h1, h2, Except.map, Bind.bind, Except.bind,
      pure, Except.pure]⟩

/-- GROUP configuration with no `group_size` set. -/
def argsGroupNone : QuantizationArgs := { strategy := QuantizationStrategy.group }

/-- GROUP configuration with `group_size = 2`. -/
def argsGroup2 : QuantizationArgs :=
  { strategy := QuantizationStrategy.group, group_size := some 2 }

set_option maxHeartbeats 1000000 in
/-- Claim C2, amended: on a fresh GROUP observer a missing `group_size`
fails with a TypeError and a zero one with a ValueError from `range`, and
a negative one updates no statistics and fails at the final
concatenation — but in every failing case the empty running-statistics
dicts have already been created (the state is not unchanged); and a
positive `group_size` that does not evenly divide the column count is not
rejected at all. -/
theorem group_size_validation (s : MovingAverageMinMaxObserver) (observed : Mat) (rd : Bool)
    (hstrat : s.quantization_args.strategy = QuantizationStrategy.group)
    (hmin : s.min_val = none) (hmax : s.max_val = none) :
    (s.quantization_args.group_size = none →
      movingAvgCalculateQparams s observed rd =
        (.error "TypeError: NoneType object cannot be interpreted as an integer",
          { s with min_val := some (.groups []), max_val := some (.groups []) })) ∧
    (s.quantization_args.group_size = some 0 →
      movingAvgCalculateQparams s observed rd =
        (.error "ValueError: range arg 3 must not be zero",
          { s with min_val := some (.groups []), max_val := some (.groups []) })) ∧
    (∀ g : ℤ, g < 0 → s.quantization_args.group_size = some g →
      movingAvgCalculateQparams s observed rd =
        (.error "RuntimeError: torch.cat expected a non-empty list of Tensors",
          { s with min_val := some (.groups []), max_val := some (.groups []) })) ∧
    ((movingAvgCalculateQparams (MovingAverageMinMaxObserver.init argsGroup2)
        [[1, 2, 3], [0, 9, 4]] true).1.isOk = true) := by
  refine ⟨?_, ?_, ?_, ?_⟩
  · intro hgs
    simp [movingAvgCalculateQparams, updateStats, groupUpdate, hstrat, hmin, hmax, hgs]
  · intro hgs
    simp [movingAvgCalculateQparams, updateStats, groupUpdate, hstrat, hmin, hmax, hgs]
  · intro g hneg hgs
    simp [movingAvgCalculateQparams, updateStats, groupUpdate, hstrat, hmin, hmax, hgs,
      pyRange, groupLoop, pyCatDim1, hneg.ne, le_of_lt hneg]
  · have hupd2 : updateStats (MovingAverageMinMaxObserver.init argsGroup2)
        [[1, 2, 3], [0, 9, 4]] true =
        (.ok (.mat [[2, 3], [9, 4]], .mat [[1, 3], [0, 4]]),
          { quantization_args := argsGroup2,
            min_val := some (.groups [(0, .mat [[1], [0]]), (2, .mat [[3], [4]])]),
            max_val := some (.groups [(0, .mat [[2], [9]]), (2, .mat [[3], [4]])]) }) := by
      have hloop : groupLoop (1/100) true [[1, 2, 3], [0, 9, 4]] 2 [0, 2] [] [] =
          (none, [(0, Tens.mat [[1], [0]]), (2, Tens.mat [[3], [4]])],
            [(0, Tens.mat [[2], [9]]), (2, Tens.mat [[3], [4]])]) := by
        norm_num +decide [groupLoop, pyLenDict, pyLen, dictFind, dictSet, colSlice,
          currentMinMax, aminDim1, amaxDim1, listMin, listMax]
      norm_num +decide [updateStats, groupUpdate, pyRange, matCols, hloop,
        MovingAverageMinMaxObserver.init, argsGroup2, pyCatDim1, catMats,
        show Int.toNat 2 = 2 from rfl,
        show List.range 2 = [0, 1] from by decide]
    rw [movingAvgCalculateQparams, hupd2]
    rcases calculate_qparams_mat_ok [[2, 3], [9, 4]] [[1, 3], [0, 4]]
      (MovingAverageMinMaxObserver.init argsGroup2).quantization_args rfl rfl with ⟨out, hc⟩
    simp [hc, Except.isOk, Except.toBool]

/-- Witness for `group_size_validation` at a concrete fresh GROUP
observer. -/
theorem group_size_validation_witness :
    ((MovingAverageMinMaxObserver.init argsGroupNone).quantization_args.group_size = none →
      movingAvgCalculateQparams (MovingAverageMinMaxObserver.init argsGroupNone) [[3, 1]] false =
        (.error "TypeError: NoneType object cannot be interpreted as an integer",
          { MovingAverageMinMaxObserver.init argsGroupNone with
              min_val := some (.groups []), max_val := some (.groups []) })) ∧
    ((MovingAverageMinMaxObserver.init argsGroupNone).quantization_args.group_size = some 0 →
      movingAvgCalculateQparams (MovingAverageMinMaxObserver.init argsGroupNone) [[3, 1]] false =
        (.error "ValueError: range arg 3 must not be zero",
          { MovingAverageMinMaxObserver.init argsGroupNone with
              min_val := some (.groups []), max_val := some (.groups []) })) ∧
    (∀ g : ℤ, g < 0 →
      (MovingAverageMinMaxObserver.init argsGroupNone).quantization_args.group_size = some g →
      movingAvgCalculateQparams (MovingAverageMinMaxObserver.init argsGroupNone) [[3, 1]] false =
        (.error "RuntimeError: torch.cat expected a non-empty list of Tensors",
          { MovingAverageMinMaxObserver.init argsGroupNone with
              min_val := some (.groups []), max_val := some (.groups []) })) ∧
    ((movingAvgCalculateQparams (MovingAverageMinMaxObserver.init argsGroup2)
        [[1, 2, 3], [0, 9, 4]] true).1.isOk = true) :=
  group_size_validation (MovingAverageMinMaxObserver.init argsGroupNone) [[3, 1]] false
    rfl rfl rfl

set_option maxHeartbeats 1000000 in
/-- Claim C2, counterexample: a `group_size` of 2 on a tensor with 3
columns (not divisible) does not fail — the call succeeds and records a
short trailing group — and a missing `group_size` does fail, but only
after the observer state has been changed (the running slots move from
`None` to empty dicts). -/
theorem group_size_fail_fast_counterexample :
    (movingAvgCalculateQparams (MovingAverageMinMaxObserver.init argsGroup2)
        [[1, 2, 3], [0, 9, 4]] true).2.min_val =
      some (.groups [(0, Tens.mat [[1], [0]]), (2, Tens.mat [[3], [4]])]) ∧
    (movingAvgCalculateQparams (MovingAverageMinMaxObserver.init argsGroupNone)
        [[1, 2]] true).1 =
      .error "TypeError: NoneType object cannot be interpreted as an integer" ∧
    (movingAvgCalculateQparams (MovingAverageMinMaxObserver.init argsGroupNone)
        [[1, 2]] true).2 ≠ MovingAverageMinMaxObserver.init argsGroupNone := by
  have hupd2 : updateStats (MovingAverageMinMaxObserver.init argsGroup2)
      [[1, 2, 3], [0, 9, 4]] true =
      (.ok (.mat [[2, 3], [9, 4]], .mat [[1, 3], [0, 4]]),
        { quantization_args := argsGroup2,
          min_val := some (.groups [(0, .mat [[1], [0]]), (2, .mat [[3], [4]])]),
          max_val := some (.groups [(0, .mat [[2], [9]]), (2, .mat [[3], [4]])]) }) := by
    have hloop : groupLoop (1/100) true [[1, 2, 3], [0, 9, 4]] 2 [0, 2] [] [] =
        (none, [(0, Tens.mat [[1], [0]]), (2, Tens.mat [[3], [4]])],
          [(0, Tens.mat [[2], [9]]), (2, Tens.mat [[3], [4]])]) := by
      norm_num +decide [groupLoop, pyLenDict, pyLen, dictFind, dictSet, colSlice,
        currentMinMax, aminDim1, amaxDim1, listMin, listMax]
    norm_num +decide [updateStats, groupUpdate, pyRange, matCols, hloop,
      MovingAverageMinMaxObserver.init, argsGroup2, pyCatDim1, catMats,
      show Int.toNat 2 = 2 from rfl,
      show List.range 2 = [0, 1] from by decide]
  have hN : movingAvgCalculateQparams (MovingAverageMinMaxObserver.init argsGroupNone)
      [[1, 2]] true =
      (.error "TypeError: NoneType object cannot be interpreted as an integer",
        { MovingAverageMinMaxObserver.init argsGroupNone with
            min_val := some (.groups []), max_val := some (.groups []) }) := by
    simp [movingAvgCalculateQparams, updateStats, groupUpdate,
      MovingAverageMinMaxObserver.init, argsGroupNone]
  refine ⟨?_, ?_, ?_⟩
  · rw [movingAvg_state, hupd2]
  · rw [hN]
  · rw [hN]
    intro hc
    have := congrArg MovingAverageMinMaxObserver.min_val hc
    simp [MovingAverageMinMaxObserver.init] at this

/-- The GROUP branch only ever rewrites the two running-statistics
slots. -/
theorem groupUpdate_frame (s : MovingAverageMinMaxObserver) (observed : Mat) (rd : Bool)
    (dmin dmax : List (ℕ × Tens)) :
    (groupUpdate s observed rd dmin dmax).2.quantization_args = s.quantization_args ∧
    (groupUpdate s observed rd dmin dmax).2.averaging_constant = s.averaging_constant := by
  unfold groupUpdate
  rcases hg : s.quantization_args.group_size with _ | g
  · simp
  · simp only
    split
    · simp
    · rcases h : groupLoop s.averaging_constant rd observed g.toNat
        (pyRange (matCols observed) g) dmin dmax with ⟨e, dmin', dmax'⟩
      rcases e with _ | e
      · rcases h1 : pyCatDim1 (dmax'.map Prod.snd) with e1 | m1 <;>
          rcases h2 : pyCatDim1 (dmin'.map Prod.snd) with e2 | m2 <;> simp [h1, h2]
      · simp

/-- The TENSOR/CHANNEL branch only ever rewrites the two
running-statistics slots. -/
theorem nongroupUpdate_frame (s : MovingAverageMinMaxObserver) (observed : Mat) (rd : Bool) :
    (nongroupUpdate s observed rd).2.quantization_args = s.quantization_args ∧
    (nongroupUpdate s observed rd).2.averaging_constant = s.averaging_constant := by
  unfold nongroupUpdate
  rcases s.min_val with _ | mnv <;> rcases s.max_val with _ | mxv
  · simp
  · rcases mxv with t | d <;> simp
  · rcases mnv with t | d <;> simp
  · rcases mnv with t1 | d1 <;> rcases mxv with t2 | d2
    · simp only
      rcases h1 : movingUpdate s.averaging_constant t1 (currentMinMax observed rd).1 with e1 | n1
      · simp
      · rcases h2 : movingUpdate s.averaging_constant t2 (currentMinMax observed rd).2 with e2 | n2 <;>
          simp
    · simp
    · simp
    · simp

/-- The statistics-update phase only ever rewrites the two
running-statistics slots. -/
theorem updateStats_frame (s : MovingAverageMinMaxObserver) (observed : Mat) (rd : Bool) :
    (updateStats s observed rd).2.quantization_args = s.quantization_args ∧
    (updateStats s observed rd).2.averaging_constant = s.averaging_constant := by
  unfold updateStats
  split
  · rcases s.min_val with _ | mnv <;> rcases s.max_val with _ | mxv
    · exact groupUpdate_frame s observed rd [] []
    · rcases mxv with t | d <;> simp
    · rcases mnv with t | d <;> simp
    · rcases mnv with t1 | d1 <;> rcases mxv with t2 | d2
      · simp
      · simp
      · simp
      · exact groupUpdate_frame s observed rd d1 d2
  · exact nongroupUpdate_frame s observed rd

/-- Claim C8: a call to the observer method leaves every observer field
other than the running statistics `min_val` / `max_val` unchanged — on
success and on failure alike, the state after the call agrees with the
state before it on `quantization_args` and `averaging_constant`.  The
embedding is purely functional in the observed tensor and the argument
object because the source applies only out-of-place torch operations to
them. -/
theorem observer_call_frame (s : MovingAverageMinMaxObserver) (observed : Mat) (rd : Bool) :
    (movingAvgCalculateQparams s observed rd).2.quantization_args = s.quantization_args ∧
    (movingAvgCalculateQparams s observed rd).2.averaging_constant = s.averaging_constant := by
  rw [movingAvg_state]
  exact updateStats_frame s observed rd

/-- Entry of a matrix built as a map over a range. -/
theorem matEntry_range_map (g : ℕ → List ℚ) (r i : ℕ) (hi : i < r) :
    matEntry ((List.range r).map g) i 0 = (g i).getD 0 0 := by
  have hrow : (List.map g (List.range r)).getD i [] = g i := by
    rw [List.getD_eq_getElem?_getD, List.getElem?_map, List.getElem?_range hi]
    simp
  unfold matEntry
  rw [hrow]

/-- Head row of a matrix built as a map over a nonempty range. -/
theorem headD_range_map (g : ℕ → List ℚ) (r : ℕ) (hr : 0 < r) :
    ((List.range r).map g).headD [] = g 0 := by
  rcases r with _ | k
  · omega
  · rw [List.range_succ_eq_map]
    simp

/-- Closed form of the broadcast operation on two single-column matrices
with the same row count. -/
theorem matZip_col (f : ℚ → ℚ → ℚ) (a b : Mat) (r : ℕ)
    (ha : a.length = r) (hb : b.length = r)
    (hca : matCols a = 1) (hcb : matCols b = 1) :
    matZip f a b = .ok ((List.range r).map fun i =>
      [f (matEntry a (if r = 1 then 0 else i) 0)
         (matEntry b (if r = 1 then 0 else i) 0)]) := by
  unfold matZip
  rw [ha, hb, hca, hcb]
  simp [bdim, show List.range 1 = [0] from by decide]

/-- The broadcast row index collapses to the plain index when the row
counts agree. -/
theorem matEntry_adjust (a : Mat) (r i : ℕ) (hi : i < r) :
    matEntry a (if r = 1 then 0 else i) 0 = matEntry a i 0 := by
  split
  · rename_i h1
    have h0 : i = 0 := by omega
    rw [h0]
  · rfl

/-- On same-shape single-column running and current statistics, the
moving-average update succeeds and acts entrywise by the source's
formula `old + c * (cur - old)`. -/
theorem movingUpdate_col (c : ℚ) (m cur : Mat) (r : ℕ) (hr : 0 < r)
    (hm : m.length = r) (hcur : cur.length = r) (hcm : matCols m = 1) (hcc : matCols cur = 1) :
    ∃ F : Mat, movingUpdate c (.mat m) (.mat cur) = .ok (.mat F) ∧
      F.length = r ∧ matCols F = 1 ∧
      ∀ i < r, matEntry F i 0 = matEntry m i 0 + c * (matEntry cur i 0 - matEntry m i 0) := by
  have hD := matZip_col (fun x y => x - y) cur m r hcur hm hcc hcm
  set gE : ℕ → List ℚ := fun i =>
    [c * (matEntry cur (if r = 1 then 0 else i) 0 - matEntry m (if r = 1 then 0 else i) 0)]
    with hgE
  have hElen : ((List.range r).map gE).length = r := by simp
  have hEcols : matCols ((List.range r).map gE) = 1 := by
    unfold matCols
    rw [headD_range_map gE r hr]
    simp [hgE]
  have hAdd := matZip_col (fun x y => x + y) m ((List.range r).map gE) r hm hElen hcm hEcols
  have hsub : tensOp (fun x y => x - y) (Tens.mat cur) (Tens.mat m) =
      .ok (.mat ((List.range r).map fun i =>
        [matEntry cur (if r = 1 then 0 else i) 0 - matEntry m (if r = 1 then 0 else i) 0])) := by
    simp only [tensOp, hD, Except.map]
  have hsmul : tensSmul c (.mat ((List.range r).map fun i =>
      [matEntry cur (if r = 1 then 0 else i) 0 - matEntry m (if r = 1 then 0 else i) 0])) =
      .mat ((List.range r).map gE) := by
    simp only [tensSmul, List.map_map]
    rfl
  have hstep : movingUpdate c (.mat m) (.mat cur) =
      tensOp (fun x y => x + y) (.mat m) (.mat ((List.range r).map gE)) := by
    unfold movingUpdate
    rw [hsub]
    simp only [Bind.bind, Except.bind]
    rw [hsmul]
  refine ⟨_, by rw [hstep]; simp only [tensOp, hAdd, Except.map]; rfl, ?_, ?_, ?_⟩
  · simp
  · unfold matCols
    rw [headD_range_map _ r hr]
    rfl
  · intro i hi
    rw [matEntry_range_map _ r i hi]
    simp only [List.getD_cons_zero]
    rw [matEntry_adjust m r i hi, matEntry_adjust _ r i hi,
      matEntry_range_map gE r i hi]
    simp only [hgE, List.getD_cons_zero]
    rw [matEntry_adjust cur r i hi, matEntry_adjust m r i hi]

/-- Entry of the per-row minimum reduction. -/
theorem matEntry_aminDim1 (obs : Mat) (i : ℕ) (hi : i < obs.length) :
    matEntry (aminDim1 obs) i 0 = listMin (obs.getD i []) := by
  rcases h : obs[i]? with _ | row
  · rw [List.getElem?_eq_none_iff] at h
    omega
  · have h2 : obs.getD i [] = row := by
      rw [List.getD_eq_getElem?_getD, h]
      rfl
    have hrow : (aminDim1 obs).getD i [] = [listMin row] := by
      unfold aminDim1
      rw [List.getD_eq_getElem?_getD, List.getElem?_map, h]
      rfl
    unfold matEntry
    rw [hrow, h2]
    rfl

/-- Entry of the per-row maximum reduction. -/
theorem matEntry_amaxDim1 (obs : Mat) (i : ℕ) (hi : i < obs.length) :
    matEntry (amaxDim1 obs) i 0 = listMax (obs.getD i []) := by
  rcases h : obs[i]? with _ | row
  · rw [List.getElem?_eq_none_iff] at h
    omega
  · have h2 : obs.getD i [] = row := by
      rw [List.getD_eq_getElem?_getD, h]
      rfl
    have hrow : (amaxDim1 obs).getD i [] = [listMax row] := by
      unfold amaxDim1
      rw [List.getD_eq_getElem?_getD, List.getElem?_map, h]
      rfl
    unfold matEntry
    rw [hrow, h2]
    rfl

/-- Shape of the per-row minimum reduction of a nonempty matrix. -/
theorem aminDim1_shape (obs : Mat) (hne : obs ≠ []) :
    (aminDim1 obs).length = obs.length ∧ matCols (aminDim1 obs) = 1 := by
  rcases obs with _ | ⟨o, rest⟩
  · exact absurd rfl hne
  · exact ⟨by simp [aminDim1], rfl⟩

/-- Shape of the per-row maximum reduction of a nonempty matrix. -/
theorem amaxDim1_shape (obs : Mat) (hne : obs ≠ []) :
    (amaxDim1 obs).length = obs.length ∧ matCols (amaxDim1 obs) = 1 := by
  rcases obs with _ | ⟨o, rest⟩
  · exact absurd rfl hne
  · exact ⟨by simp [amaxDim1], rfl⟩

/-- Claim C4: the averaging constant defaults to 0.01; under a non-GROUP
strategy the first call initializes the running minimum and maximum
exactly to the current call's values; and a subsequent call updates them
by `running += averaging_constant * (current - running)` — stated exactly
for the 0-d running statistics of the TENSOR reduction and entrywise for
the per-channel column statistics of the `reduce_dims = (1,)`
reduction. -/
theorem moving_average_update_rule (s : MovingAverageMinMaxObserver) (obs : Mat) (rd : Bool)
    (hstrat : s.quantization_args.strategy = QuantizationStrategy.tensor ∨
      s.quantization_args.strategy = QuantizationStrategy.channel) :
    (∀ args, (MovingAverageMinMaxObserver.init args).averaging_constant = 1 / 100) ∧
    (s.min_val = none → s.max_val = none →
      (movingAvgCalculateQparams s obs rd).2.min_val =
        some (.tens (currentMinMax obs rd).1) ∧
      (movingAvgCalculateQparams s obs rd).2.max_val =
        some (.tens (currentMinMax obs rd).2)) ∧
    (∀ a b : ℚ, s.min_val = some (.tens (.scalar a)) → s.max_val = some (.tens (.scalar b)) →
      (movingAvgCalculateQparams s obs false).2.min_val =
        some (.tens (.scalar (a + s.averaging_constant * ((aminmaxAll obs).1 - a)))) ∧
      (movingAvgCalculateQparams s obs false).2.max_val =
        some (.tens (.scalar (b + s.averaging_constant * ((aminmaxAll obs).2 - b))))) ∧
    (∀ m M : Mat, s.min_val = some (.tens (.mat m)) → s.max_val = some (.tens (.mat M)) →
      obs ≠ [] → m.length = obs.length → M.length = obs.length →
      matCols m = 1 → matCols M = 1 →
      ∃ F G : Mat,
        (movingAvgCalculateQparams s obs true).2.min_val = some (.tens (.mat F)) ∧
        (movingAvgCalculateQparams s obs true).2.max_val = some (.tens (.mat G)) ∧
        ∀ i < obs.length,
          matEntry F i 0 = matEntry m i 0 +
            s.averaging_constant * (listMin (obs.getD i []) - matEntry m i 0) ∧
          matEntry G i 0 = matEntry M i 0 +
            s.averaging_constant * (listMax (obs.getD i []) - matEntry M i 0)) := by
  have hne : s.quantization_args.strategy ≠ QuantizationStrategy.group := by
    rcases hstrat with h | h <;> rw [h] <;> intro hc <;> simp at hc
  have hus : ∀ rd', updateStats s obs rd' = nongroupUpdate s obs rd' := by
    intro rd'
    unfold updateStats
    rw [if_neg hne]
  refine ⟨fun args => rfl, ?_, ?_, ?_⟩
  · intro hmin hmax
    rw [movingAvg_state, hus, nongroupUpdate, hmin, hmax]
    simp
  · intro a b hmin hmax
    rw [movingAvg_state, hus, nongroupUpdate, hmin, hmax]
    simp only [currentMinMax, if_neg (by simp : ¬(false = true))]
    simp [movingUpdate, tensOp, tensSmul, Bind.bind, Except.bind]
  · intro m M hmin hmax hobs hm hM hcm hcM
    have hr : 0 < obs.length := by
      rcases obs with _ | ⟨o, rest⟩
      · exact absurd rfl hobs
      · simp
    rcases aminDim1_shape obs hobs with ⟨hal, hac⟩
    rcases amaxDim1_shape obs hobs with ⟨hxl, hxc⟩
    rcases movingUpdate_col s.averaging_constant m (aminDim1 obs) obs.length hr hm
      hal hcm hac with ⟨F, hF, hFlen, hFcols, hFentry⟩
    rcases movingUpdate_col s.averaging_constant M (amaxDim1 obs) obs.length hr hM
      hxl hcM hxc with ⟨G, hG, hGlen, hGcols, hGentry⟩
    refine ⟨F, G, ?_, ?_, ?_⟩
    · rw [movingAvg_state, hus, nongroupUpdate, hmin, hmax]
      simp [currentMinMax, hF, hG]
    · rw [movingAvg_state, hus, nongroupUpdate, hmin, hmax]
      simp [currentMinMax, hF, hG]
    · intro i hi
      constructor
      · rw [hFentry i hi, matEntry_aminDim1 obs i hi]
      · rw [hGentry i hi, matEntry_amaxDim1 obs i hi]

/-- Witness for `moving_average_update_rule` on a fresh TENSOR observer
and the tensor `[[2, 4]]`. -/
theorem moving_average_update_rule_witness :
    (∀ args, (MovingAverageMinMaxObserver.init args).averaging_constant = 1 / 100) ∧
    ((MovingAverageMinMaxObserver.init argsDefault).min_val = none →
      (MovingAverageMinMaxObserver.init argsDefault).max_val = none →
      (movingAvgCalculateQparams (MovingAverageMinMaxObserver.init argsDefault)
          [[2, 4]] false).2.min_val =
        some (.tens (currentMinMax [[2, 4]] false).1) ∧
      (movingAvgCalculateQparams (MovingAverageMinMaxObserver.init argsDefault)
          [[2, 4]] false).2.max_val =
        some (.tens (currentMinMax [[2, 4]] false).2)) ∧
    (∀ a b : ℚ,
      (MovingAverageMinMaxObserver.init argsDefault).min_val = some (.tens (.scalar a)) →
      (MovingAverageMinMaxObserver.init argsDefault).max_val = some (.tens (.scalar b)) →
      (movingAvgCalculateQparams (MovingAverageMinMaxObserver.init argsDefault)
          [[2, 4]] false).2.min_val =
        some (.tens (.scalar (a + (MovingAverageMinMaxObserver.init argsDefault).averaging_constant *
          ((aminmaxAll [[2, 4]]).1 - a)))) ∧
      (movingAvgCalculateQparams (MovingAverageMinMaxObserver.init argsDefault)
          [[2, 4]] false).2.max_val =
        some (.tens (.scalar (b + (MovingAverageMinMaxObserver.init argsDefault).averaging_constant *
          ((aminmaxAll [[2, 4]]).2 - b))))) ∧
    (∀ m M : Mat,
      (MovingAverageMinMaxObserver.init argsDefault).min_val = some (.tens (.mat m)) →
      (MovingAverageMinMaxObserver.init argsDefault).max_val = some (.tens (.mat M)) →
      ([[2, 4]] : Mat) ≠ [] → m.length = ([[2, 4]] : Mat).length →
      M.length = ([[2, 4]] : Mat).length → matCols m = 1 → matCols M = 1 →
      ∃ F G : Mat,
        (movingAvgCalculateQparams (MovingAverageMinMaxObserver.init argsDefault)
            [[2, 4]] true).2.min_val = some (.tens (.mat F)) ∧
        (movingAvgCalculateQparams (MovingAverageMinMaxObserver.init argsDefault)
            [[2, 4]] true).2.max_val = some (.tens (.mat G)) ∧
        ∀ i < ([[2, 4]] : Mat).length,
          matEntry F i 0 = matEntry m i 0 +
            (MovingAverageMinMaxObserver.init argsDefault).averaging_constant *
              (listMin (([[2, 4]] : Mat).getD i []) - matEntry m i 0) ∧
          matEntry G i 0 = matEntry M i 0 +
            (MovingAverageMinMaxObserver.init argsDefault).averaging_constant *
              (listMax (([[2, 4]] : Mat).getD i []) - matEntry M i 0)) :=
  moving_average_update_rule (MovingAverageMinMaxObserver.init argsDefault)
    [[2, 4]] false (Or.inl rfl)

/-- CHANNEL-strategy configuration (8-bit symmetric INT). -/
def argsChannel : QuantizationArgs := { strategy := QuantizationStrategy.channel }

/-- Claim C5, amended: a later call whose reduced per-call statistics are
broadcast-incompatible with the established running statistics (row
counts differ and neither is 1) fails with the torch broadcast error and
leaves the observer state exactly unchanged; but broadcast-compatible
shape changes are accepted silently (see the counterexample). -/
theorem incompatible_shape_error (s : MovingAverageMinMaxObserver) (obs : Mat) (m M : Mat)
    (hstrat : s.quantization_args.strategy ≠ QuantizationStrategy.group)
    (hmin : s.min_val = some (.tens (.mat m))) (hmax : s.max_val = some (.tens (.mat M)))
    (hm1 : m.length ≠ 1) (ho1 : obs.length ≠ 1) (hne : m.length ≠ obs.length) :
    movingAvgCalculateQparams s obs true =
      (.error "RuntimeError: tensor shapes cannot be broadcast", s) := by
  have hsub : matZip (fun x y => x - y) (aminDim1 obs) m =
      .error "RuntimeError: tensor shapes cannot be broadcast" := by
    unfold matZip
    have hlen : (aminDim1 obs).length = obs.length := by simp [aminDim1]
    rw [hlen]
    have hb : bdim obs.length m.length = none := by
      unfold bdim
      rw [if_neg (fun hc => hne hc.symm), if_neg ho1, if_neg hm1]
    rw [hb]
  have hmu : movingUpdate s.averaging_constant (Tens.mat m) (Tens.mat (aminDim1 obs)) =
      .error "RuntimeError: tensor shapes cannot be broadcast" := by
    unfold movingUpdate
    simp only [tensOp, hsub, Except.map, Bind.bind, Except.bind]
  unfold movingAvgCalculateQparams updateStats
  rw [if_neg hstrat]
  unfold nongroupUpdate
  rw [hmin, hmax]
  simp [currentMinMax, hmu]

/-- Witness for `incompatible_shape_error`: per-channel running
statistics with 2 rows, later tensor with 3 rows. -/
theorem incompatible_shape_error_witness :
    movingAvgCalculateQparams
      { quantization_args := argsChannel,
        min_val := some (.tens (.mat [[1], [2]])),
        max_val := some (.tens (.mat [[3], [4]])) }
      [[0, 1], [2, 3], [4, 5]] true =
    (.error "RuntimeError: tensor shapes cannot be broadcast",
      { quantization_args := argsChannel,
        min_val := some (.tens (.mat [[1], [2]])),
        max_val := some (.tens (.mat [[3], [4]])) }) :=
  incompatible_shape_error _ _ [[1], [2]] [[3], [4]] (by decide) rfl rfl
    (by decide) (by decide) (by decide)

set_option maxHeartbeats 1000000 in
/-- Claim C5, counterexample: a CHANNEL observer whose first call
establishes per-channel statistics with 1 row accepts a later call with 3
rows without any error — broadcasting silently reshapes the running
statistics from 1 row to 3 rows instead of failing. -/
theorem broadcast_shape_change_counterexample :
    ((movingAvgCalculateQparams
        ((movingAvgCalculateQparams (MovingAverageMinMaxObserver.init argsChannel)
          [[1, 2]] true).2)
        [[0, 4], [1, 5], [2, 6]] true).1.isOk = true) ∧
    ((movingAvgCalculateQparams
        ((movingAvgCalculateQparams (MovingAverageMinMaxObserver.init argsChannel)
          [[1, 2]] true).2)
        [[0, 4], [1, 5], [2, 6]] true).2.min_val =
      some (.tens (.mat [[99/100], [1], [101/100]]))) := by
  have h1 : (movingAvgCalculateQparams (MovingAverageMinMaxObserver.init argsChannel)
      [[1, 2]] true).2 =
      { quantization_args := argsChannel,
        min_val := some (.tens (.mat [[1]])), max_val := some (.tens (.mat [[2]])) } := by
    rw [movingAvg_state]
    norm_num +decide [updateStats, nongroupUpdate, currentMinMax, aminDim1, amaxDim1,
      listMin, listMax, MovingAverageMinMaxObserver.init, argsChannel]
  have hupd : updateStats
      { quantization_args := argsChannel,
        min_val := some (.tens (.mat [[1]])), max_val := some (.tens (.mat [[2]])) }
      [[0, 4], [1, 5], [2, 6]] true =
      (.ok (.mat [[99/100], [1], [101/100]], .mat [[101/50], [203/100], [51/25]]),
        { quantization_args := argsChannel,
          min_val := some (.tens (.mat [[99/100], [1], [101/100]])),
          max_val := some (.tens (.mat [[101/50], [203/100], [51/25]])) }) := by
    norm_num +decide [updateStats, nongroupUpdate, currentMinMax, aminDim1, amaxDim1,
      listMin, listMax, argsChannel, movingUpdate, tensOp, tensSmul, matZip, bdim,
      matCols, matEntry, Bind.bind, Except.bind, Except.map,
      show List.range 3 = [0, 1, 2] from by decide,
      show List.range 1 = [0] from by decide]
  rw [h1]
  constructor
  · rw [movingAvgCalculateQparams, hupd]
    rcases calculate_qparams_mat_ok [[99/100], [1], [101/100]] [[101/50], [203/100], [51/25]]
      argsChannel rfl rfl with ⟨out, hc⟩
    simp [hc, Except.isOk, Except.toBool]
  · rw [movingAvg_state, hupd]

/-- Setting a key makes it found with the new value. -/
theorem dictFind_dictSet_self {α β : Type} [DecidableEq α] (l : List (α × β)) (k : α) (v : β) :
    dictFind k (dictSet l k v) = some v := by
  induction l with
  | nil => simp [dictSet, dictFind]
  | cons kv rest ih =>
    unfold dictSet
    by_cases h : kv.1 = k
    · simp [h, dictFind]
    · simp only [if_neg h]
      unfold dictFind
      rw [if_neg h]
      exact ih

/-- Setting one key leaves lookups of other keys unchanged. -/
theorem dictFind_dictSet_ne {α β : Type} [DecidableEq α] (l : List (α × β)) (k k' : α) (v : β)
    (h : k' ≠ k) : dictFind k' (dictSet l k v) = dictFind k' l := by
  have hkk : ¬ k = k' := fun hc => h hc.symm
  induction l with
  | nil =>
    show (if k = k' then some v else dictFind k' []) = dictFind k' []
    rw [if_neg hkk]
  | cons kv rest ih =>
    unfold dictSet
    by_cases hk : kv.1 = k
    · rw [if_pos hk]
      show (if k = k' then some v else dictFind k' rest) =
        (if kv.1 = k' then some kv.2 else dictFind k' rest)
      rw [if_neg hkk, if_neg (by rw [hk]; exact hkk)]
    · rw [if_neg hk]
      show (if kv.1 = k' then some kv.2 else dictFind k' (dictSet rest k v)) =
        (if kv.1 = k' then some kv.2 else dictFind k' rest)
      rw [ih]

/-- A slot present in the nested mapping stays present after any further
insertion. -/
theorem nestedFind_insert_mono {nest : Nested} {key p : Name} (d' p' v : Name)
    (h : (nestedFind nest key p).isSome = true) :
    (nestedFind (nestedInsert nest d' p' v) key p).isSome = true := by
  unfold nestedFind at h ⊢
  rcases hm : match_param_name key p with _ | d
  · rw [hm] at h
    simp at h
  · rw [hm] at h
    simp only [Option.some_bind] at h ⊢
    rcases hd : dictFind d nest with _ | sub
    · rw [hd] at h
      simp at h
    · rw [hd] at h
      simp only [Option.some_bind] at h
      unfold nestedInsert
      by_cases hdd : d' = d
      · subst hdd
        rw [dictFind_dictSet_self]
        simp only [Option.some_bind]
        rw [hd]
        simp only [Option.getD_some]
        by_cases hpp : p' = p
        · subst hpp
          rw [dictFind_dictSet_self]
          simp
        · rw [dictFind_dictSet_ne _ _ _ _ (fun hc => hpp hc.symm)]
          exact h
      · rw [dictFind_dictSet_ne _ _ _ _ (fun hc => hdd hc.symm)]
        rw [hd]
        simp only [Option.some_bind]
        exact h

/-- The `matched` flag after the inner loop is true exactly when some
parameter name matches the key. -/
theorem nestParamsFold_matched (params : List Name) (key v : Name) :
    ∀ (nest : Nested) (b : Bool),
    (nestParamsFold params key v (nest, b)).2 =
      (b || params.any fun p => (match_param_name key p).isSome) := by
  induction params with
  | nil => intro nest b; simp [nestParamsFold]
  | cons q rest ih =>
    intro nest b
    unfold nestParamsFold at ih ⊢
    rw [List.foldl_cons]
    rcases hm : match_param_name key q with _ | d
    · rw [ih nest b]
      simp [hm]
    · rw [ih (nestedInsert nest d q v) true]
      simp [hm]

/-- The inner loop never removes a slot from the nested mapping. -/
theorem nestParamsFold_mono (params : List Name) (key v k0 p0 : Name) :
    ∀ (nest : Nested) (b : Bool),
    (nestedFind nest k0 p0).isSome = true →
    (nestedFind (nestParamsFold params key v (nest, b)).1 k0 p0).isSome = true := by
  induction params with
  | nil => intro nest b h; simpa [nestParamsFold] using h
  | cons q rest ih =>
    intro nest b h
    unfold nestParamsFold at ih ⊢
    rw [List.foldl_cons]
    rcases hm : match_param_name key q with _ | d
    · exact ih nest b h
    · exact ih (nestedInsert nest d q v) true (nestedFind_insert_mono d q v h)

/-- The inner loop records the processed key under every parameter name
it matches. -/
theorem nestParamsFold_records (params : List Name) (key v p : Name)
    (hp : p ∈ params) (hm : (match_param_name key p).isSome = true) :
    ∀ (nest : Nested) (b : Bool),
    (nestedFind (nestParamsFold params key v (nest, b)).1 key p).isSome = true := by
  induction params with
  | nil => cases hp
  | cons q rest ih =>
    intro nest b
    unfold nestParamsFold at ih ⊢
    rw [List.foldl_cons]
    rcases List.mem_cons.mp hp with hq | hrest
    · subst hq
      rcases hmv : match_param_name key p with _ | d
      · rw [hmv] at hm
        simp at hm
      · have hbase : (nestedFind (nestedInsert nest d p v) key p).isSome = true := by
          unfold nestedFind
          rw [hmv]
          simp only [Option.some_bind]
          unfold nestedInsert
          rw [dictFind_dictSet_self]
          simp only [Option.some_bind]
          rw [dictFind_dictSet_self]
          simp
        exact nestParamsFold_mono rest key v key p (nestedInsert nest d p v) true hbase
    · rcases hmq : match_param_name key q with _ | d
      · exact ih hrest nest b
      · exact ih hrest (nestedInsert nest d q v) true

/-- No parameter matches exactly when the any-match test is false. -/
theorem all_isNone_eq_not_any (params : List Name) (key : Name) :
    (params.all fun p => (match_param_name key p).isNone) =
      !(params.any fun p => (match_param_name key p).isSome) := by
  induction params with
  | nil => rfl
  | cons q rest ih =>
    simp only [List.all_cons, List.any_cons, ih, Bool.not_or]
    rcases match_param_name key q with _ | d <;> simp

/-- The other-parameters dict collects, in order, exactly the keys that
match no parameter name. -/
theorem foldl_processKey_other (params : List Name) :
    ∀ (wm : List (Name × Name)) (acc : Nested × List (Name × Name)),
    (wm.foldl (processKey params) acc).2 =
      acc.2 ++ wm.filter fun kv => params.all fun p => (match_param_name kv.1 p).isNone := by
  intro wm
  induction wm with
  | nil => intro acc; simp
  | cons kv rest ih =>
    intro acc
    rw [List.foldl_cons, ih]
    unfold processKey
    dsimp only
    rw [nestParamsFold_matched params kv.1 kv.2 acc.1 false]
    simp only [Bool.false_or]
    rcases hany : (params.any fun p => (match_param_name kv.1 p).isSome) with _ | _
    · simp only [if_neg (by simp [hany] : ¬ (false = true))]
      rw [List.filter_cons]
      rw [all_isNone_eq_not_any, hany]
      simp
    · simp only [if_pos rfl]
      rw [List.filter_cons]
      rw [all_isNone_eq_not_any, hany]
      simp

/-- The outer loop never removes a slot from the nested mapping. -/
theorem foldl_processKey_mono (params : List Name) (k0 p0 : Name) :
    ∀ (wm : List (Name × Name)) (acc : Nested × List (Name × Name)),
    (nestedFind acc.1 k0 p0).isSome = true →
    (nestedFind (wm.foldl (processKey params) acc).1 k0 p0).isSome = true := by
  intro wm
  induction wm with
  | nil => intro acc h; simpa using h
  | cons kv rest ih =>
    intro acc h
    rw [List.foldl_cons]
    apply ih
    unfold processKey
    dsimp only
    have hstep := nestParamsFold_mono params kv.1 kv.2 k0 p0 acc.1 false h
    rcases hb : (nestParamsFold params kv.1 kv.2 (acc.1, false)).2 with _ | _
    · simp only [hb, if_neg (by simp : ¬ (false = true))]
      exact hstep
    · simp only [hb, if_pos rfl]
      exact hstep

/-- The outer loop records every key of the weight mapping under every
parameter name it matches. -/
theorem foldl_processKey_records (params : List Name) (key v p : Name)
    (hp : p ∈ params) (hm : (match_param_name key p).isSome = true) :
    ∀ (wm : List (Name × Name)) (acc : Nested × List (Name × Name)),
    (key, v) ∈ wm →
    (nestedFind (wm.foldl (processKey params) acc).1 key p).isSome = true := by
  intro wm
  induction wm with
  | nil => intro acc h; cases h
  | cons kv rest ih =>
    intro acc hkv
    rw [List.foldl_cons]
    rcases List.mem_cons.mp hkv with heq | hrest
    · apply foldl_processKey_mono
      subst heq
      unfold processKey
      dsimp only
      have hrec := nestParamsFold_records params key v p hp hm acc.1 false
      rcases hb : (nestParamsFold params key v (acc.1, false)).2 with _ | _
      · simp only [hb, if_neg (by simp : ¬ (false = true))]
        exact hrec
      · simp only [hb, if_pos rfl]
        exact hrec
    · exact ih _ hrest

/-- Claim C10: with `return_other_params = True` every key of the weight
mapping lands in exactly one of the two results — a key matching at
least one name in `params_to_nest` has its slot recorded in the nested
mapping and is absent from `other_params`, and a key is in
`other_params` exactly when it matches no name. -/
theorem nested_mapping_partition (wm : List (Name × Name)) (params : List Name) (key : Name)
    (hk : key ∈ wm.map Prod.fst) :
    ((∃ p ∈ params, match_param_name key p ≠ none) →
      key ∉ ((get_nested_weight_mappings wm params).2.map Prod.fst) ∧
      ∃ p ∈ params, (nestedFind (get_nested_weight_mappings wm params).1 key p).isSome = true) ∧
    ((∀ p ∈ params, match_param_name key p = none) ↔
      key ∈ ((get_nested_weight_mappings wm params).2.map Prod.fst)) := by
  rcases List.mem_map.mp hk with ⟨kv, hkv, hfst⟩
  have hother : (get_nested_weight_mappings wm params).2 =
      wm.filter fun kv => params.all fun p => (match_param_name kv.1 p).isNone := by
    unfold get_nested_weight_mappings
    rw [foldl_processKey_other params wm ([], [])]
    rfl
  constructor
  · rintro ⟨p, hp, hmp⟩
    constructor
    · intro hmem
      rw [hother] at hmem
      rcases List.mem_map.mp hmem with ⟨kv', hkv', hfst'⟩
      rcases List.mem_filter.mp hkv' with ⟨_, hall⟩
      have hthis := List.all_eq_true.mp hall p hp
      rw [hfst'] at hthis
      exact hmp (Option.isNone_iff_eq_none.mp hthis)
    · refine ⟨p, hp, ?_⟩
      have hkey : (key, kv.2) ∈ wm := by
        rw [← hfst]
        exact hkv
      exact foldl_processKey_records params key kv.2 p hp
        (Option.ne_none_iff_isSome.mp hmp) wm ([], []) hkey
  · constructor
    · intro hall
      rw [hother]
      apply List.mem_map.mpr
      refine ⟨kv, ?_, hfst⟩
      apply List.mem_filter.mpr
      refine ⟨hkv, ?_⟩
      apply List.all_eq_true.mpr
      intro p hp
      rw [hfst]
      exact Option.isNone_iff_eq_none.mpr (hall p hp)
    · intro hmem p hp
      rw [hother] at hmem
      rcases List.mem_map.mp hmem with ⟨kv', hkv', hfst'⟩
      rcases List.mem_filter.mp hkv' with ⟨_, hall⟩
      have hthis := List.all_eq_true.mp hall p hp
      rw [hfst'] at hthis
      exact Option.isNone_iff_eq_none.mp hthis

/-- Witness for `nested_mapping_partition` on a two-entry weight mapping
where one key matches `weight_scale` and the other matches nothing. -/
theorem nested_mapping_partition_witness :
    ((∃ p ∈ ["weight_scale".toList], match_param_name "layer.weight_scale".toList p ≠ none) →
      "layer.weight_scale".toList ∉
        ((get_nested_weight_mappings
          [("layer.weight_scale".toList, "shard0".toList), ("layer.bias".toList, "shard1".toList)]
          ["weight_scale".toList]).2.map Prod.fst) ∧
      ∃ p ∈ ["weight_scale".toList],
        (nestedFind (get_nested_weight_mappings
          [("layer.weight_scale".toList, "shard0".toList), ("layer.bias".toList, "shard1".toList)]
          ["weight_scale".toList]).1 "layer.weight_scale".toList p).isSome = true) ∧
    ((∀ p ∈ ["weight_scale".toList], match_param_name "layer.weight_scale".toList p = none) ↔
      "layer.weight_scale".toList ∈
        ((get_nested_weight_mappings
          [("layer.weight_scale".toList, "shard0".toList), ("layer.bias".toList, "shard1".toList)]
          ["weight_scale".toList]).2.map Prod.fst)) :=
  nested_mapping_partition
    [("layer.weight_scale".toList, "shard0".toList), ("layer.bias".toList, "shard1".toList)]
    ["weight_scale".toList] "layer.weight_scale".toList (by decide)
